import Mathlib

/-!
Verification of the Syzygy tablebase probe engine (src/syzygy/tbprobe.cpp).

This file gives a shallow embedding, in Lean 4, of the parts of the probe
engine that the specification claims talk about:

* the DTZ remap function `map_score`;
* the block decompressor `decompress_pairs` with its sparse-index block walk;
* the pawnless leading-group position encoder of `do_probe_table` and the
  leading-group factors chosen by `set_groups`, together with the static
  tables (`MapA1D1D4`, `MapB1H1H7`, `Binomial`, ...) built by
  `Tablebases.init`;
* the header validation performed by `TBFile.map`;
* the Robin Hood hash table of `TBTables` (`insert` / `get`);
* the probe driver: `search`, `probe_wdl` and `probe_dtz`, modelled over an
  abstract game tree in which each node carries the outcome of the raw table
  lookups (a missing or unmappable table appears as a failing lookup).

Machine integers are modelled as `Nat` / `Int`; wraparound of `uint32` block
counters and of `uint64` bit buffers is made explicit with `% 2 ^ 32` and
`% 2 ^ 64`.  Bytes of memory-mapped regions are modelled as functions
`Nat → Nat` read modulo 256.  The embedding targets the standard-chess
build of the source (the optional variant code compiled under the variant
macros is represented only where a claim needs it, namely the variant tag
used by `set_groups`).
-/

namespace Syzygy

/-! ### Squares

In the source (src/types.h style), a square is an integer 0..63 with
`rank_of s = s >> 3` and `file_of s = s & 7`.  `off_A1H8` is from
tbprobe.cpp line 427. -/

def rank_of (s : Nat) : Nat := s / 8

def file_of (s : Nat) : Nat := s % 8

/-- Signed distance of a square from the a1-h8 diagonal:
`int(rank_of(sq)) - file_of(sq)` (tbprobe.cpp line 427). -/
def off_A1H8 (s : Nat) : Int := (rank_of s : Int) - (file_of s : Int)

/-! ### WDL scores and probe states

`WDLScore` is the 5-valued enum `-2 .. 2`; `ProbeState` is the probe outcome
flag.  Both are declared in src/syzygy/tbprobe.h (interface header); their
values are fixed by the spec (section 3) and by their uses in tbprobe.cpp. -/

inductive WDLScore where
  | loss
  | blessedLoss
  | draw
  | cursedWin
  | win
deriving DecidableEq, Repr

/-- The integer value of a `WDLScore` (`WDLLoss = -2`, ..., `WDLWin = 2`). -/
def WDLScore.toInt : WDLScore → Int
  | .loss => -2
  | .blessedLoss => -1
  | .draw => 0
  | .cursedWin => 1
  | .win => 2

/-- `operator-(WDLScore)` from tbprobe.cpp line 301: `WDLScore(-int(d))`. -/
def WDLScore.negate : WDLScore → WDLScore
  | .loss => .win
  | .blessedLoss => .cursedWin
  | .draw => .draw
  | .cursedWin => .blessedLoss
  | .win => .loss

inductive ProbeState where
  | fail
  | ok
  | changeStm
  | zeroingBestMove
  | threat
deriving DecidableEq, Repr

/-- `sign_of` from tbprobe.cpp lines 474-476: `(0 < val) - (val < 0)`. -/
def sign_of (v : Int) : Int := (if 0 < v then 1 else 0) - (if v < 0 then 1 else 0)

/-- `dtz_before_zeroing` from tbprobe.cpp lines 466-471. -/
def dtz_before_zeroing (wdl : WDLScore) : Int :=
  if wdl = .win then 1
  else if wdl = .cursedWin then 101
  else if wdl = .blessedLoss then -101
  else if wdl = .loss then -1
  else 0

/-! ### DTZ remap (`map_score`, tbprobe.cpp lines 1012-1036)

The DTZ variant of `map_score` reads, from the probed sub-table, the flags
byte, the `map[]` byte region of the table (`entry->map`) and the four
per-WDL offsets `map_idx[]`.  `TBFlag` bits (line 299):
`STM = 1, Mapped = 2, WinPlies = 4, LossPlies = 8, Wide = 16,
SingleValue = 128`. -/

/-- The data of a DTZ sub-table that `map_score` consumes: the flags byte,
the byte region `entry->map` (read modulo 256), and the `map_idx[]` array of
16-bit offsets. -/
structure DtzMapData where
  flags : Nat
  mapBytes : Nat → Nat
  map_idx : Nat → Nat

/-- A 16-bit little-endian read of element `i` of the `uint16_t` view of a
byte region, as done by `((uint16_t *)map)[...]` on a little-endian host. -/
def read16LE (m : Nat → Nat) (i : Nat) : Nat :=
  m (2 * i) % 256 + 256 * (m (2 * i + 1) % 256)

/-- The constant `WDLMap[] = { 1, 3, 0, 2, 0 }` of `map_score`
(tbprobe.cpp line 1014), indexed by `wdl + 2`. -/
def WDLMap (i : Nat) : Nat := [1, 3, 0, 2, 0].getD i 0

/-- The DTZ `map_score` (tbprobe.cpp lines 1012-1036), translated line by
line: the optional remap through `map[]` (16-bit entries when `Wide`, 8-bit
otherwise), the moves-to-plies doubling, and the final `+ 1`. -/
def map_score (e : DtzMapData) (value : Nat) (wdl : WDLScore) : Nat :=
  let value :=
    if e.flags.testBit 1 then
      if e.flags.testBit 4 then
        read16LE e.mapBytes (e.map_idx (WDLMap (wdl.toInt + 2).toNat) + value)
      else
        e.mapBytes (e.map_idx (WDLMap (wdl.toInt + 2).toNat) + value) % 256
    else value
  let value :=
    if (wdl = .win ∧ ¬e.flags.testBit 2) ∨ (wdl = .loss ∧ ¬e.flags.testBit 3)
        ∨ wdl = .cursedWin ∨ wdl = .blessedLoss then
      value * 2
    else value
  value + 1

/-- The DTZ remap as worded by the spec (section 4.6): rule 1 remaps through
the per-WDL slice of `map[]` when `Mapped` is set, with the `WDLMap` offsets
written out per WDL value; rule 2 doubles stored moves into plies; rule 3
adds one. -/
def map_score_spec (e : DtzMapData) (value : Nat) (wdl : WDLScore) : Nat :=
  let wdlSlot : Nat :=
    match wdl with
    | .loss => 1
    | .blessedLoss => 3
    | .draw => 0
    | .cursedWin => 2
    | .win => 0
  let remapped :=
    if e.flags.testBit 1 then
      if e.flags.testBit 4 then read16LE e.mapBytes (e.map_idx wdlSlot + value)
      else e.mapBytes (e.map_idx wdlSlot + value) % 256
    else value
  let plies :=
    match wdl with
    | .win => if e.flags.testBit 2 then remapped else remapped * 2
    | .loss => if e.flags.testBit 3 then remapped else remapped * 2
    | .cursedWin => remapped * 2
    | .blessedLoss => remapped * 2
    | .draw => remapped
  plies + 1

/-! ### Block decompressor (`decompress_pairs`, tbprobe.cpp lines 884-995)

`PairsData` (lines 643-663) stores pointers into the memory-mapped file;
here each pointed-to table becomes a function.  `lowestSym` entries are
16-bit, `blockLength` entries 16-bit, `btree` entries are 12-bit halves of
3-byte records, `base64` are 64-bit values, `symlen` are bytes; values are
normalised modulo the corresponding bound where the C++ type forces it.
The compressed stream itself stays a byte region, read through big-endian
32/64-bit loads exactly like the `number<uint32_t/uint64_t, BigEndian>`
calls of the source. -/

structure PairsData where
  flags : Nat
  maxSymLen : Nat
  minSymLen : Nat
  blocksNum : Nat
  sizeofBlock : Nat
  span : Nat
  lowestSym : Nat → Nat
  btreeLeft : Nat → Nat
  btreeRight : Nat → Nat
  blockLength : Nat → Nat
  sparseIndexBlock : Nat → Nat
  sparseIndexOffset : Nat → Nat
  dataBytes : Nat → Nat
  base64 : Nat → Nat
  symlen : Nat → Nat

/-- Big-endian 32-bit load of four bytes at byte address `a`, as performed
by `number<uint32_t, BigEndian>`. -/
def read32BE (bytes : Nat → Nat) (a : Nat) : Nat :=
  ((bytes a % 256) * 256 + bytes (a + 1) % 256) * 65536
    + (bytes (a + 2) % 256) * 256 + bytes (a + 3) % 256

/-- Big-endian 64-bit load of eight bytes at byte address `a`, as performed
by `number<uint64_t, BigEndian>`. -/
def read64BE (bytes : Nat → Nat) (a : Nat) : Nat :=
  read32BE bytes a * 4294967296 + read32BE bytes (a + 4)

/-- The first block-adjustment loop of `decompress_pairs`
(tbprobe.cpp lines 923-924):
`while (offset < 0) offset += d->blockLength[--block] + 1;`.
`block` is a `uint32_t`, so the pre-decrement wraps modulo `2 ^ 32`.
The loop terminates unconditionally: every round increases `offset` by at
least one, and the recursion is measured by `(-offset).toNat`. -/
def walkDown (bl : Nat → Nat) (block : Nat) (offset : Int) : Nat × Int :=
  if offset < 0 then
    let b := (block + 4294967295) % 4294967296
    walkDown bl b (offset + bl b + 1)
  else (block, offset)
termination_by (-offset).toNat
decreasing_by
  have hbl : (0 : Int) ≤ (bl ((block + 4294967295) % 4294967296) : Int) := Int.ofNat_nonneg _
  omega

/-- The second block-adjustment loop of `decompress_pairs`
(tbprobe.cpp lines 926-927):
`while (offset > d->blockLength[block]) offset -= d->blockLength[block++] + 1;`.
Each round decreases `offset` by at least one while `offset` stays
non-negative, so the recursion is measured by `offset.toNat`. -/
def walkUp (bl : Nat → Nat) (block : Nat) (offset : Int) : Nat × Int :=
  if (bl block : Int) < offset then
    walkUp bl ((block + 1) % 4294967296) (offset - bl block - 1)
  else (block, offset)
termination_by offset.toNat
decreasing_by
  omega

/-- Block location in `decompress_pairs` (tbprobe.cpp lines 905-927): the
sparse-index seek followed by the two block-adjustment loops.  Returns the
final block number and the offset of the wanted value inside it. -/
def locate_block (d : PairsData) (idx : Nat) : Nat × Int :=
  let k := idx / d.span
  let block := d.sparseIndexBlock k % 4294967296
  let offset : Int := d.sparseIndexOffset k % 65536
  let diff : Int := (idx % d.span : Int) - (d.span / 2 : Nat)
  let firstWalk := walkDown d.blockLength block (offset + diff)
  walkUp d.blockLength firstWalk.1 firstWalk.2

/-- The inner length-search loop of the Huffman decode
(tbprobe.cpp lines 941-947): `int len = 0; while (buf64 < d->base64[len]) ++len;`.
The source relies on the `base64[]` vector to stop the search; reading past
its end is out-of-bounds, which the model reports as `none` when `fuel`
(instantiated with the vector length) runs out. -/
def symLenSearch (d : PairsData) (buf64 : Nat) : Nat → Nat → Option Nat
  | _, 0 => none
  | len, fuel + 1 =>
      if buf64 < d.base64 len then symLenSearch d buf64 (len + 1) fuel
      else some len

/-- The symbol-decoding loop of `decompress_pairs`
(tbprobe.cpp lines 939-972).  State: the 64-bit buffer `buf64`, the number
`buf64Size` of valid bits in it (a C `int`), the byte address `ptr` of the
next 32-bit refill word, and the remaining `offset`.  The source loop is
bounded only by the data it reads, so the model carries explicit `fuel` and
returns `none` if it is exhausted. -/
def decodeSym (d : PairsData) :
    Nat → Nat → Int → Nat → Int → Option (Nat × Int)
  | 0, _, _, _, _ => none
  | fuel + 1, buf64, buf64Size, ptr, offset =>
      match symLenSearch d buf64 0 (d.maxSymLen - d.minSymLen + 1) with
      | none => none
      | some len =>
          let sym := (((buf64 - d.base64 len) >>> (64 - len - d.minSymLen))
                        + d.lowestSym len % 65536) % 65536
          if offset < d.symlen sym % 256 + 1 then some (sym, offset)
          else
            let offset := offset - (d.symlen sym % 256) - 1
            let len := len + d.minSymLen
            let buf64 := (buf64 <<< len) % 18446744073709551616
            let buf64Size := buf64Size - len
            if buf64Size ≤ 32 then
              let buf64Size := buf64Size + 32
              let buf64 := buf64 |||
                (read32BE d.dataBytes ptr <<< (64 - buf64Size).toNat)
              decodeSym d fuel buf64 buf64Size (ptr + 4) offset
            else decodeSym d fuel buf64 buf64Size ptr offset

/-- The recursive-pairing expansion loop of `decompress_pairs`
(tbprobe.cpp lines 978-994), with explicit `fuel` standing for the source's
reliance on the symbol tree being acyclic. -/
def expandSym (d : PairsData) : Nat → Nat → Int → Option Nat
  | 0, _, _ => none
  | fuel + 1, sym, offset =>
      if d.symlen sym % 256 ≠ 0 then
        let left := d.btreeLeft sym % 4096
        if offset < d.symlen left % 256 + 1 then expandSym d fuel left offset
        else expandSym d fuel (d.btreeRight sym % 4096)
               (offset - (d.symlen left % 256) - 1)
      else some (d.btreeLeft sym % 4096)

/-- `decompress_pairs` (tbprobe.cpp lines 884-995).  The `SingleValue`
special case (flag bit 7, lines 886-888) returns `d->minSymLen` before any
block location or decoding.  Otherwise the block holding `idx` is located,
the first 64 bits of the block are loaded big-endian (after which the
source advances `ptr` by two 32-bit words, i.e. 8 bytes), the Huffmanize
loop finds the symbol covering the offset, and the symbol is expanded to a
leaf.  `fuel` bounds the two data-driven loops of the source. -/
def decompress_pairs (d : PairsData) (idx : Nat) (fuel : Nat) : Option Nat :=
  if d.flags.testBit 7 then some d.minSymLen
  else
    let lb := locate_block d idx
    let ptr := lb.1 * d.sizeofBlock
    let buf64 := read64BE d.dataBytes ptr
    match decodeSym d fuel buf64 64 (ptr + 8) lb.2 with
    | none => none
    | some se => expandSym d fuel se.1 se.2

/-! ### Static tables built by `Tablebases.init` (tbprobe.cpp lines 2095-2206)

The imperative init loops are rendered as left folds over the same ranges,
threading the `code` counter and the partially-filled array (a function
updated with `Function.update`). -/

/-- `MapB1H1H7[]` (init loop, tbprobe.cpp lines 2105-2108): squares strictly
below the a1-h8 diagonal are numbered 0..27 in square order. -/
def mapB1H1H7 : Nat → Nat :=
  ((List.range 64).foldl
    (fun st s =>
      if off_A1H8 s < 0 then (st.1 + 1, Function.update st.2 s st.1) else st)
    ((0 : Nat), fun _ => 0)).2

/-- The first pass of the `MapA1D1D4[]` init loop (tbprobe.cpp lines
2111-2118): squares of the a1-d1-d4 triangle strictly below the diagonal
get codes 0..5 in square order, diagonal triangle squares are queued. -/
def mapA1D1D4Pass1 : (Nat × List Nat) × (Nat → Nat) :=
  (List.range 28).foldl
    (fun st s =>
      if off_A1H8 s < 0 ∧ file_of s ≤ 3 then
        ((st.1.1 + 1, st.1.2), Function.update st.2 s st.1.1)
      else if off_A1H8 s = 0 ∧ file_of s ≤ 3 then
        ((st.1.1, st.1.2 ++ [s]), st.2)
      else st)
    (((0 : Nat), ([] : List Nat)), fun _ => 0)

/-- `MapA1D1D4[]` (tbprobe.cpp lines 2111-2122): after the first pass the
queued diagonal squares a1, b2, c3, d4 receive the remaining codes 6..9. -/
def mapA1D1D4 : Nat → Nat :=
  (mapA1D1D4Pass1.1.2.foldl
    (fun st s => (st.1 + 1, Function.update st.2 s st.1))
    (mapA1D1D4Pass1.1.1, mapA1D1D4Pass1.2)).2

/-- `Binomial[k][n]` (tbprobe.cpp lines 2153-2158), by the Pascal
recurrence of the init loop; entries with `n = 0` other than
`Binomial[0][0] = 1` keep their zero initialisation. -/
def Binomial : Nat → Nat → Nat
  | k, 0 => if k = 0 then 1 else 0
  | k, n + 1 =>
      (if 0 < k then Binomial (k - 1) n else 0)
        + (if k < n + 1 then Binomial k n else 0)

/-- The `MultTwist[]` constant table (tbprobe.cpp lines 409-418). -/
def MultTwist (s : Nat) : Nat :=
  [15, 63, 55, 47, 40, 48, 56, 12,
   62, 11, 39, 31, 24, 32, 8, 57,
   54, 38, 7, 23, 16, 4, 33, 49,
   46, 30, 22, 3, 0, 17, 25, 41,
   45, 29, 21, 2, 1, 18, 26, 42,
   53, 37, 6, 20, 19, 5, 34, 50,
   61, 10, 36, 28, 27, 35, 9, 58,
   14, 60, 52, 44, 43, 51, 59, 13].getD s 0

/-- The `InvTriangle[]` constant table (tbprobe.cpp line 421). -/
def InvTriangle (j : Nat) : Nat :=
  [1, 2, 3, 10, 11, 19, 0, 9, 18, 27].getD j 0

/-- The `MultIdx[i][]` / `MultFactor[i]` init loop (tbprobe.cpp lines
2161-2168) for a fixed `i`: the running sum before step `j` is
`MultIdx[i][j]`, and `MultFactor[i]` is the final sum. -/
def multPass (i : Nat) : (Nat → Nat) × Nat :=
  (List.range 10).foldl
    (fun st j =>
      (Function.update st.1 j st.2,
       st.2 + if i = 0 then 1 else Binomial i (MultTwist (InvTriangle j))))
    ((fun _ => 0), 0)

def MultIdx (i j : Nat) : Nat := (multPass i).1 j

def MultFactor (i : Nat) : Nat := (multPass i).2

/-- `MapPawns[]` (tbprobe.cpp lines 2174-2202, first `leadPawnsCnt` pass):
walking files a..d and ranks 2..7, the square and its horizontal mirror
receive the descending counter values 47, 46, ... -/
def MapPawnsTab : Nat → Nat :=
  (((List.range 4).foldl
    (fun st f =>
      (List.range 6).foldl
        (fun st2 r =>
          let sq := 8 * (r + 1) + f
          let afterSq := (Function.update st2.1 sq st2.2, st2.2 - 1)
          (Function.update afterSq.1 (8 * (r + 1) + (7 - f)) afterSq.2,
           afterSq.2 - 1))
        st)
    ((fun _ => 0), (47 : Nat)))).1

/-- `LeadPawnsSize[leadPawnsCnt][f]` (tbprobe.cpp lines 2178-2206): the
per-file sum of `Binomial[leadPawnsCnt - 1][MapPawns[sq]]` over the six
ranks of file `f`. -/
def LeadPawnsSize (cnt f : Nat) : Nat :=
  (List.range 6).foldl
    (fun idx r => idx + Binomial (cnt - 1) (MapPawnsTab (8 * (r + 1) + f))) 0

/-! ### Variants

The variant tags are taken from the per-variant suffix/magic matrices of
tbprobe.cpp (lines 61-291); the tag exists for every `#ifdef` arm of those
arrays.  `main_variant` itself lives in src/types.h, which is not among the
provided sources. -/

inductive Variant where
  | chess
  | anti
  | atomic
  | crazyhouse
  | extinction
  | grid
  | horde
  | koth
  | losers
  | race
  | threecheck
  | twokings
  | giveaway
  | suicide
  | bughouse
  | displacedgrid
  | loopvariant
  | slippedgrid
  | twokingssymmetric
deriving DecidableEq, Repr

/-- Modelled from the spec: `main_variant` is defined in src/types.h, which
is not part of the provided sources.  The spec (sections 4.4 and 9) treats
giveaway and suicide as members of the antichess family; the remaining
subvariants fold into their base variant, and main variants map to
themselves. -/
def mainVariant : Variant → Variant
  | .giveaway => .anti
  | .suicide => .anti
  | .bughouse => .crazyhouse
  | .loopvariant => .crazyhouse
  | .displacedgrid => .grid
  | .slippedgrid => .grid
  | .twokingssymmetric => .twokings
  | v => v

/-- The connected-kings test of `do_probe_table` (tbprobe.cpp lines
1224-1231): atomic, or any variant of the antichess family. -/
def connectedKings (v : Variant) : Bool :=
  v = Variant.atomic || mainVariant v = Variant.anti

/-! ### Leading-group factor of `set_groups` (tbprobe.cpp lines 1377-1392)

`set_groups` multiplies the running product `idx` by the leading-group
factor when the loop counter `k` reaches `order[0]`.  The factor depends
only on the table-classification fields of the `TBTable` and, for pawn
tables, on the leading-group length and the file. -/

/-- The classification fields of a `TBTable` that `set_groups` consults when
choosing the leading-group factor. -/
structure TBMeta where
  hasPawns : Bool
  numUniquePieces : Nat
  minLikeMan : Nat
  variant : Variant

/-- The factor by which `set_groups` multiplies `idx` in its
`k == order[0]` branch (tbprobe.cpp lines 1380-1392), for leading-group
length `groupLen0` and file `f`. -/
def set_groups_lead_factor (e : TBMeta) (groupLen0 f : Nat) : Nat :=
  if e.hasPawns then LeadPawnsSize groupLen0 f
  else if 3 ≤ e.numUniquePieces then 31332
  else if e.numUniquePieces = 2 then
    if e.variant = Variant.chess then 462 else 518
  else if e.minLikeMan = 2 then 278
  else MultFactor (e.minLikeMan - 1)

/-! ### Pawnless leading-group encoder, at least 3 unique pieces
(`do_probe_table`, tbprobe.cpp lines 1188-1221)

The input squares are the leading group after the normalisations of lines
1126-1159: the first square lies in the a1-d1-d4 triangle and the first
square off the a1-h8 diagonal (in group order) lies below it.  The C++
computes in `int` before widening to `uint64_t`, so the formula is given
over `Int`. -/

/-- The four-branch leading-group index formula for tables with at least 3
unique pieces (tbprobe.cpp lines 1188-1221). -/
def encodeLead3 (s0 s1 s2 : Nat) : Int :=
  let adjust1 : Int := if s0 < s1 then 1 else 0
  let adjust2 : Int := (if s0 < s2 then 1 else 0) + (if s1 < s2 then 1 else 0)
  if off_A1H8 s0 ≠ 0 then
    ((mapA1D1D4 s0 : Int) * 63 + ((s1 : Int) - adjust1)) * 62
      + (s2 : Int) - adjust2
  else if off_A1H8 s1 ≠ 0 then
    (6 * 63 + (rank_of s0 : Int) * 28 + (mapB1H1H7 s1 : Int)) * 62
      + (s2 : Int) - adjust2
  else if off_A1H8 s2 ≠ 0 then
    6 * 63 * 62 + 4 * 28 * 62 + (rank_of s0 : Int) * 7 * 28
      + ((rank_of s1 : Int) - adjust1) * 28 + (mapB1H1H7 s2 : Int)
  else
    6 * 63 * 62 + 4 * 28 * 62 + 4 * 7 * 28 + (rank_of s0 : Int) * 7 * 6
      + ((rank_of s1 : Int) - adjust1) * 6 + ((rank_of s2 : Int) - adjust2)

/-! ### `TBFile::map` (tbprobe.cpp lines 546-625)

The modelled path is the one for a successfully opened and memory-mapped
file: the file size check, the magic comparison, and the returned pointer.
(The re-open and mmap failure exits depend on the operating system and are
outside the model: an open failure returns null, an mmap failure aborts.)
The outcome records the effects the claim talks about: whether the process
was aborted, the final `*baseAddress`, the returned pointer (as an offset
into the file, `none` standing for `nullptr`), and whether `unmap` was
called. -/

structure TBFileMapOutcome where
  aborted : Bool
  baseAddress : Option Nat
  returned : Option Nat
  unmapCalled : Bool
deriving DecidableEq, Repr

/-- Whether the leading four bytes of the mapping equal the expected magic:
`memcmp(data, magic, 4) == 0` (tbprobe.cpp line 617). -/
def magicMatches (bytes magic : Nat → Nat) : Prop :=
  bytes 0 % 256 = magic 0 % 256 ∧ bytes 1 % 256 = magic 1 % 256
    ∧ bytes 2 % 256 = magic 2 % 256 ∧ bytes 3 % 256 = magic 3 % 256

instance (bytes magic : Nat → Nat) : Decidable (magicMatches bytes magic) := by
  unfold magicMatches; infer_instance

/-- `TBFile::map` (tbprobe.cpp lines 546-625) on a successfully opened and
mapped file of `fsize` bytes: a size not congruent to 16 modulo 64 aborts
the process (lines 561-565); a magic mismatch unmaps, nulls the base
address and returns null (lines 617-622); otherwise the base address is the
start of the file and the returned pointer is 4 bytes past it (line 624). -/
def TBFile_map (fsize : Nat) (bytes magic : Nat → Nat) : TBFileMapOutcome :=
  if fsize % 64 ≠ 16 then
    { aborted := true, baseAddress := none, returned := none,
      unmapCalled := false }
  else if magicMatches bytes magic then
    { aborted := false, baseAddress := some 0, returned := some 4,
      unmapCalled := false }
  else
    { aborted := false, baseAddress := none, returned := none,
      unmapCalled := true }

/-! ### The `TBTables` Robin Hood hash (tbprobe.cpp lines 758-825)

`Size = 1 << 12` (standard-chess build; the antichess build uses
`1 << 15`), `Overflow = 1`, so `hashTable` has `Size + 1` buckets.  A
zeroed bucket has `key = 0` and null `wdl` / `dtz` pointers; the pointers
are modelled as `Option Nat` (payload identities), `none` standing for
null.  The home bucket of a key is `(uint32_t)key & (Size - 1)`, i.e.
`key % 4096` because 4096 divides `2 ^ 32`. -/

def HSize : Nat := 4096

structure HEntry where
  key : Nat
  wdl : Option Nat
  dtz : Option Nat
deriving DecidableEq, Repr

def emptyEntry : HEntry := ⟨0, none, none⟩

/-- The hash table cleared by `TBTables::clear` (memset to zero). -/
def clearedTable : Nat → HEntry := fun _ => emptyEntry

/-- The body of `TBTables::insert` (tbprobe.cpp lines 784-807).  The C++
`for (uint32_t bucket = homeBucket; bucket < Size + Overflow - 1; ++bucket)`
loop is driven here by structural fuel (any fuel at least
`HSize - bucket + 1` makes the fuel check unreachable, and `insert` below
passes `HSize + 1`); falling out of the loop is the "hash table size too
low" abort, modelled as `none`.  A bucket holding the same key or an empty
bucket (null `wdl`) receives the entry; otherwise, if the occupant's home
bucket is later than ours, the occupant is displaced (Robin Hood) and the
walk continues with it. -/
def insertLoop (t : Nat → HEntry) (key homeBucket : Nat) (e : HEntry) :
    Nat → Nat → Option (Nat → HEntry)
  | 0, _ => none
  | fuel + 1, bucket =>
      if bucket < HSize + 1 - 1 then
        let other := t bucket
        if other.key = key ∨ other.wdl = none then
          some (Function.update t bucket e)
        else
          let otherHome := other.key % HSize
          if homeBucket < otherHome then
            insertLoop (Function.update t bucket e) other.key otherHome other
              fuel (bucket + 1)
          else insertLoop t key homeBucket e fuel (bucket + 1)
      else none

/-- `TBTables::insert` for a key and its two table pointers. -/
def insert (t : Nat → HEntry) (key wdl dtz : Nat) : Option (Nat → HEntry) :=
  insertLoop t key (key % HSize) ⟨key, some wdl, some dtz⟩ (HSize + 1)
    (key % HSize)

/-- A sequence of catalog insertions, as performed by `TBTables::add` at
init time; `none` as soon as one insertion aborts. -/
def insertAll : List (Nat × Nat × Nat) → (Nat → HEntry) → Option (Nat → HEntry)
  | [], t => some t
  | item :: rest, t =>
      match insert t item.1 item.2.1 item.2.2 with
      | none => none
      | some t => insertAll rest t

/-- The typed pointer a `get<Type>` probe inspects: the `wdl` pointer for
WDL probes, the `dtz` pointer for DTZ probes. -/
def HEntry.typedPtr (e : HEntry) (useWdl : Bool) : Option Nat :=
  if useWdl then e.wdl else e.dtz

/-- The body of `TBTables::get` (tbprobe.cpp lines 810-816): an unbounded
linear probe from the home bucket that stops at a matching key or at an
entry whose typed pointer is null, returning that pointer.  The source loop
has no bound, so the model carries fuel; `none` means the probe has not
stopped within `fuel` buckets. -/
def getLoop (t : Nat → HEntry) (key : Nat) (useWdl : Bool) :
    Nat → Nat → Option (Option Nat)
  | 0, _ => none
  | fuel + 1, bucket =>
      let e := t bucket
      if e.key = key ∨ e.typedPtr useWdl = none then some (e.typedPtr useWdl)
      else getLoop t key useWdl fuel (bucket + 1)

/-- `TBTables::get` with enough fuel to reach the reserved empty tail
bucket. -/
def get (t : Nat → HEntry) (key : Nat) (useWdl : Bool) : Option (Option Nat) :=
  getLoop t key useWdl (HSize + 1 - key % HSize) (key % HSize)

/-! ### The probe driver (tbprobe.cpp lines 1896-1919, 2022-2087, 2300-2402)

The driver consumes a `Position` capability (legal-move enumeration with
do/undo, checker detection, piece count) and the raw table lookups.  Both
are modelled by a finite game tree: a node carries

* `pieceCount`: the value of `pos.count<ALL_PIECES>()`;
* `checkers`: whether `pos.checkers()` is non-empty;
* `wdlEntry`: what the catalog lookup plus `do_probe_table` of
  `probe_table<WDL>` would yield for this position (`none` = the table is
  missing or cannot be mapped, i.e. the probe fails);
* `dtzEntry`: likewise for `probe_table<DTZ>`, which can additionally
  report `CHANGE_STM` for a one-sided table;
* `moves`: the legal moves, each with its `pos.capture(move)` flag, its
  `type_of(pos.moved_piece(move)) == PAWN` flag and the child position.

This targets the standard-chess build: the variant-end and variant
stalemate checks of `probe_table` (lines 1899-1905) compile to nothing, and
`pos.is_anti()` is false so `search` never enters `sprobe_ab`. -/

inductive DtzProbe where
  | fail
  | changeStm
  | found (d : Int)
deriving DecidableEq, Repr

mutual
inductive Pos where
  | mk (pieceCount : Nat) (checkers : Bool) (wdlEntry : Option WDLScore)
      (dtzEntry : DtzProbe) (moves : Edges)
inductive Edges where
  | nil
  | cons (capture pawnMove : Bool) (child : Pos) (rest : Edges)
end

def Pos.pieceCount : Pos → Nat
  | .mk a _ _ _ _ => a

def Pos.checkers : Pos → Bool
  | .mk _ a _ _ _ => a

def Pos.wdlEntry : Pos → Option WDLScore
  | .mk _ _ a _ _ => a

def Pos.dtzEntry : Pos → DtzProbe
  | .mk _ _ _ a _ => a

def Pos.moves : Pos → Edges
  | .mk _ _ _ _ a => a

def Edges.length : Edges → Nat
  | .nil => 0
  | .cons _ _ _ rest => 1 + rest.length

/-- The edges of a move list as a list of (capture, pawn-move, child)
triples, used to state hypotheses about the moves of a position. -/
def Edges.toList : Edges → List (Bool × Bool × Pos)
  | .nil => []
  | .cons c p ch rest => (c, p, ch) :: rest.toList

/-- `probe_table<WDL>` (tbprobe.cpp lines 1896-1919) for standard chess: a
two-piece position short-circuits to a draw without consulting the catalog
(line 1910); a missing or unmappable table is a failure; otherwise the
decompressed score is returned. -/
def probe_table_wdl (pieceCount : Nat) (wdlEntry : Option WDLScore) :
    Option WDLScore :=
  if pieceCount = 2 then some .draw else wdlEntry

/-- `probe_table<DTZ>`: as above but with `Ret = int`, so the two-piece
short-circuit returns `Ret(WDLDraw) = 0`. -/
def probe_table_dtz (pieceCount : Nat) (dtzEntry : DtzProbe) : DtzProbe :=
  if pieceCount = 2 then .found 0 else dtzEntry

/-- Outcome of the move loop of `search` (tbprobe.cpp lines 2036-2061):
a failing recursive probe, an early return on a winning zeroing move, or
the loop running to completion with the best value and the number of moves
searched. -/
inductive SearchLoopOut where
  | fail
  | early (v : WDLScore)
  | done (best : WDLScore) (cnt : Nat)
deriving DecidableEq, Repr

mutual
/-- `search<CheckZeroingMoves>` (tbprobe.cpp lines 2022-2087) for standard
chess, returning the score together with the final `*result`.  After the
move loop: `noMoreMoves` when every legal move was searched; the position
itself is probed otherwise; and the larger of the probed value and the best
zeroing value is returned, with `ZEROING_BEST_MOVE` when the best zeroing
value prevails with a positive score or when all moves were zeroing. -/
def search (czm : Bool) (p : Pos) : WDLScore × ProbeState :=
  match p with
  | .mk pieceCount _ wdlEntry _ moves =>
      match searchLoop czm moves .loss 0 with
      | .fail => (.draw, .fail)
      | .early v => (v, .zeroingBestMove)
      | .done best cnt =>
          let noMoreMoves : Bool := cnt != 0 && cnt == moves.length
          match (if noMoreMoves then some best
                 else probe_table_wdl pieceCount wdlEntry) with
          | none => (.draw, .fail)
          | some value =>
              if value.toInt ≤ best.toInt then
                (best,
                 if 0 < best.toInt ∨ noMoreMoves = true then .zeroingBestMove
                 else .ok)
              else (value, .ok)

/-- The move loop of `search` (tbprobe.cpp lines 2036-2061): non-captures
are skipped (non-capture pawn moves are searched only when
`CheckZeroingMoves`); each searched move recurses with `search<false>`; a
failing recursion aborts; a value of at least `WDLWin` returns early. -/
def searchLoop (czm : Bool) (es : Edges) (best : WDLScore) (cnt : Nat) :
    SearchLoopOut :=
  match es with
  | .nil => .done best cnt
  | .cons cap pawn child rest =>
      if !cap && (!czm || !pawn) then searchLoop czm rest best cnt
      else
        let r := search false child
        let value := r.1.negate
        if r.2 = .fail then .fail
        else if best.toInt < value.toInt then
          if 2 ≤ value.toInt then .early value
          else searchLoop czm rest value (cnt + 1)
        else searchLoop czm rest best (cnt + 1)
end

/-- `Tablebases::probe_wdl` (tbprobe.cpp lines 2300-2304). -/
def probe_wdl (p : Pos) : WDLScore × ProbeState :=
  search false p

mutual
/-- `Tablebases::probe_dtz` (tbprobe.cpp lines 2332-2402) for standard
chess, returning the DTZ value together with the final `*result`: a failed
or drawn zeroing-aware search returns 0; `ZEROING_BEST_MOVE` returns
`dtz_before_zeroing`; otherwise the DTZ table is probed, and on
`CHANGE_STM` a 1-ply search over the legal moves minimises the DTZ of the
moves preserving the sign of the WDL score. -/
def probe_dtz : Pos → Int × ProbeState
  | p@(.mk pieceCount _ _ dtzEntry moves) =>
      let sr := search true p
      if sr.2 = .fail ∨ sr.1 = .draw then (0, sr.2)
      else if sr.2 = .zeroingBestMove then (dtz_before_zeroing sr.1, sr.2)
      else
        match probe_table_dtz pieceCount dtzEntry with
        | .fail => (0, .fail)
        | .found d =>
            ((d + 100 * (if sr.1 = .blessedLoss ∨ sr.1 = .cursedWin then 1
                         else 0)) * sign_of sr.1.toInt, sr.2)
        | .changeStm => dtzLoop sr.1 moves 65535 .changeStm
termination_by p => (sizeOf p, 0)

/-- The `CHANGE_STM` move loop of `probe_dtz` (tbprobe.cpp lines 2365-2401):
for every legal move, the DTZ after the move (via `dtz_before_zeroing` of a
one-level search for zeroing moves, recursively via `probe_dtz` otherwise,
both negated); a mating move forces `minDTZ` to 1; non-zeroing values are
moved one ply away from zero; values smaller than the current minimum and
of the same sign as the WDL score become the new minimum; a failing probe
returns 0 at once.  An empty move list means the side to move is mated and
yields -1 (line 2401, `minDTZ == 0xFFFF`). -/
def dtzLoop (wdl : WDLScore) (es : Edges) (minDTZ : Int) (r : ProbeState) :
    Int × ProbeState :=
  match es with
  | .nil => (if minDTZ = 65535 then -1 else minDTZ, r)
  | .cons cap pawn child rest =>
      let dr := dtzStep cap pawn child
      let minD1 := if dr.1 = 1 ∧ child.checkers = true ∧ child.moves.length = 0
                   then 1 else minDTZ
      let dtz1 := if (cap || pawn) = false then dr.1 + sign_of dr.1 else dr.1
      let minD2 := if dtz1 < minD1 ∧ sign_of dtz1 = sign_of wdl.toInt
                   then dtz1 else minD1
      if dr.2 = .fail then (0, .fail)
      else dtzLoop wdl rest minD2 dr.2
termination_by (sizeOf es, 2)

/-- One move of the `CHANGE_STM` loop (tbprobe.cpp lines 2370-2379): the
raw `dtz` value obtained after doing the move — through a one-level search
and `dtz_before_zeroing` for a zeroing move, through a recursive `probe_dtz`
otherwise — together with the resulting `*result`, both negated to the
probing side's point of view. -/
def dtzStep (cap pawn : Bool) (child : Pos) : Int × ProbeState :=
  if cap || pawn then
    (- dtz_before_zeroing (search false child).1, (search false child).2)
  else (- (probe_dtz child).1, (probe_dtz child).2)
termination_by (sizeOf child, 1)
end

/-- The raw per-move DTZ value computed by one iteration of the
`CHANGE_STM` loop of `probe_dtz`, before the one-ply correction (the value
of the variable `dtz` at tbprobe.cpp line 2379). -/
def edgeRaw (cap pawn : Bool) (child : Pos) : Int :=
  (dtzStep cap pawn child).1

/-- The per-move DTZ value after the one-ply correction of non-zeroing
moves (the value of `dtz` at tbprobe.cpp line 2391). -/
def edgeAdj (cap pawn : Bool) (child : Pos) : Int :=
  if (cap || pawn) = false then edgeRaw cap pawn child + sign_of (edgeRaw cap pawn child)
  else edgeRaw cap pawn child

/-- The condition under which an iteration of the `CHANGE_STM` loop forces
`minDTZ` to 1 (tbprobe.cpp line 2382): the move mates. -/
def mateForce (cap pawn : Bool) (child : Pos) : Prop :=
  edgeRaw cap pawn child = 1 ∧ child.checkers = true ∧ child.moves.length = 0

/-! ### Theorems.  Definitions end here; everything below is a proof. -/

/-- Claim C3: for every DTZ sub-table and every decoded raw value,
`map_score` first replaces the value through
`map[map_idx[WDLMap[wdl + 2]] + value]` when the `Mapped` flag is set
(16-bit entries when `Wide`, 8-bit otherwise) with
`WDLMap = [1, 3, 0, 2, 0]`, then doubles the value when the WDL is a win
without `WinPlies`, a loss without `LossPlies`, or a cursed win or blessed
loss, and finally returns `value + 1`: the source function coincides with
the spec's three rules on every input. -/
theorem map_score_follows_spec (e : DtzMapData) (value : Nat) (wdl : WDLScore) :
    map_score e value wdl = map_score_spec e value wdl := by
  cases wdl <;>
    simp only [map_score, map_score_spec, WDLScore.toInt, WDLMap, List.getD] <;>
    norm_num <;>
    by_cases h1 : e.flags.testBit 1 <;>
    by_cases h2 : e.flags.testBit 2 <;>
    by_cases h3 : e.flags.testBit 3 <;>
    simp [h1, h2, h3]

/-- Claim C4: for every `PairsData` whose flags contain `SingleValue`
(bit 7) and every index, `decompress_pairs` returns the stored single value
`minSymLen`, independently of the index (and of the fuel driving the
decoding loops, which are never entered). -/
theorem decompress_pairs_single_value (d : PairsData) (idx fuel : Nat)
    (h : d.flags.testBit 7 = true) :
    decompress_pairs d idx fuel = some d.minSymLen := by
  simp [decompress_pairs, h]

/-- Witness for C4 at a concrete single-valued sub-table (flags byte 128,
stored value 7) and two different indices. -/
theorem decompress_pairs_single_value_witness :
    decompress_pairs
        ⟨128, 0, 7, 0, 0, 0, fun _ => 0, fun _ => 0, fun _ => 0, fun _ => 0,
          fun _ => 0, fun _ => 0, fun _ => 0, fun _ => 0, fun _ => 0⟩ 5 3
      = some 7
    ∧ decompress_pairs
        ⟨128, 0, 7, 0, 0, 0, fun _ => 0, fun _ => 0, fun _ => 0, fun _ => 0,
          fun _ => 0, fun _ => 0, fun _ => 0, fun _ => 0, fun _ => 0⟩ 123456 0
      = some 7 :=
  ⟨decompress_pairs_single_value _ 5 3 (by decide),
   decompress_pairs_single_value _ 123456 0 (by decide)⟩

/-- The first block-adjustment loop leaves a non-negative offset: it only
stops when `offset < 0` fails. -/
theorem walkDown_nonneg (bl : Nat → Nat) (b : Nat) (o : Int) :
    0 ≤ (walkDown bl b o).2 := by
  induction b, o using walkDown.induct bl with
  | case1 b o h bb ih =>
      rw [walkDown]
      simp only [if_pos h]
      exact ih
  | case2 b o h =>
      rw [walkDown]
      simp only [if_neg h]
      omega

/-- The second block-adjustment loop started at a non-negative offset stops
with `0 ≤ offset ≤ blockLength[block]`: each round subtracts
`blockLength[block] + 1` only while `offset` exceeds `blockLength[block]`. -/
theorem walkUp_bounds (bl : Nat → Nat) (b : Nat) (o : Int) (h : 0 ≤ o) :
    0 ≤ (walkUp bl b o).2 ∧ (walkUp bl b o).2 ≤ (bl (walkUp bl b o).1 : Int) := by
  induction b, o using walkUp.induct bl with
  | case1 b o hlt ih =>
      rw [walkUp]
      simp only [if_pos hlt]
      exact ih (by omega)
  | case2 b o hlt =>
      rw [walkUp]
      simp only [if_neg hlt]
      exact ⟨h, by omega⟩

/-- Claim C5: for every `PairsData` and every index, the two
block-adjustment loops of `decompress_pairs` terminate — in the model both
`walkDown` and `walkUp` are total functions, their well-founded recursions
being measured by the strictly shrinking absolute offset — and the final
block `b` and offset satisfy `0 ≤ offset ≤ blockLength[b]`.  This holds for
every sparse-index content and block-length table, hence in particular for
the well-formed ones the claim quantifies over. -/
theorem locate_block_offset_in_range (d : PairsData) (idx : Nat) :
    0 ≤ (locate_block d idx).2
    ∧ (locate_block d idx).2 ≤ (d.blockLength (locate_block d idx).1 : Int) := by
  unfold locate_block
  exact walkUp_bounds d.blockLength _ _ (walkDown_nonneg d.blockLength _ _)

/-- Claim C8: for a successfully opened and memory-mapped table file, a
file size not congruent to 16 modulo 64 aborts the process; with a valid
size, a leading-magic mismatch unmaps the file, nulls the base address and
returns a null pointer; and a matching magic returns the pointer 4 bytes
past the start of the mapping without aborting. -/
theorem TBFile_map_header_validation (fsize : Nat) (bytes magic : Nat → Nat) :
    (fsize % 64 ≠ 16 → (TBFile_map fsize bytes magic).aborted = true)
    ∧ (fsize % 64 = 16 → ¬magicMatches bytes magic →
        TBFile_map fsize bytes magic
          = { aborted := false, baseAddress := none, returned := none,
              unmapCalled := true })
    ∧ (fsize % 64 = 16 → magicMatches bytes magic →
        (TBFile_map fsize bytes magic).returned = some 4
        ∧ (TBFile_map fsize bytes magic).aborted = false
        ∧ (TBFile_map fsize bytes magic).unmapCalled = false) := by
  refine ⟨fun h => ?_, fun h hm => ?_, fun h hm => ?_⟩
  · simp [TBFile_map, h]
  · simp [TBFile_map, h, hm]
  · simp [TBFile_map, h, hm]

/-- `sign_of` is the three-valued sign. -/
theorem sign_of_spec (v : Int) :
    (0 < v ∧ sign_of v = 1) ∨ (v < 0 ∧ sign_of v = -1)
      ∨ (v = 0 ∧ sign_of v = 0) := by
  unfold sign_of
  split_ifs <;> omega

/-- The DTZ `map_score` always returns at least 1 (it ends in `value + 1`
on a non-negative value), so a successful `probe_table<DTZ>` lookup yields
a positive magnitude.  This discharges, for real tables, the positivity
premise of the sign theorem below. -/
theorem map_score_pos (e : DtzMapData) (v : Nat) (w : WDLScore) :
    1 ≤ map_score e v w := by
  simp only [map_score]
  split_ifs <;> omega

/-- Sign of the `CHANGE_STM` loop of `probe_dtz`: if the WDL score is not
a draw, no mating move can force a spurious positive minimum while the
side is lost, and some move carries a DTZ of the WDL's sign (below the
0xFFFF sentinel), then the loop's result has the sign of the WDL score.
The invariant carried through the loop is that `minDTZ` is either still
the 0xFFFF sentinel or a value of the right sign below it. -/
theorem dtzLoop_sign (wdl : WDLScore) (hW : sign_of wdl.toInt ≠ 0) :
    ∀ (n : Nat) (es : Edges) (minD : Int) (r : ProbeState), es.length ≤ n →
      (minD = 65535 ∨ (sign_of minD = sign_of wdl.toInt ∧ minD < 65535)) →
      (sign_of wdl.toInt = -1 →
        ∀ m ∈ es.toList, ¬mateForce m.1 m.2.1 m.2.2) →
      ((∃ m ∈ es.toList,
          sign_of (edgeAdj m.1 m.2.1 m.2.2) = sign_of wdl.toInt
          ∧ edgeAdj m.1 m.2.1 m.2.2 < 65535) ∨ minD ≠ 65535) →
      (dtzLoop wdl es minD r).2 ≠ ProbeState.fail →
      sign_of (dtzLoop wdl es minD r).1 = sign_of wdl.toInt := by
  intro n
  induction n with
  | zero =>
      intro es minD r hlen hinv hmate hex hnf
      cases es with
      | nil =>
          rw [dtzLoop]
          rcases hex with ⟨m, hm, _⟩ | hne
          · simp [Edges.toList] at hm
          · rcases hinv with h | ⟨hs, _⟩
            · exact absurd h hne
            · rw [if_neg hne]
              exact hs
      | cons c pw chd rest => simp [Edges.length] at hlen
  | succ n ih =>
      intro es minD r hlen hinv hmate hex hnf
      cases es with
      | nil =>
          rw [dtzLoop]
          rcases hex with ⟨m, hm, _⟩ | hne
          · simp [Edges.toList] at hm
          · rcases hinv with h | ⟨hs, _⟩
            · exact absurd h hne
            · rw [if_neg hne]
              exact hs
      | cons c pw chd rest =>
          rw [dtzLoop] at hnf ⊢
          by_cases hf : (dtzStep c pw chd).2 = ProbeState.fail
          · simp [hf] at hnf
          · rw [if_neg hf] at hnf ⊢
            have hraw : (dtzStep c pw chd).1 = edgeRaw c pw chd := rfl
            have hadj :
                (if (c || pw) = false
                 then (dtzStep c pw chd).1 + sign_of (dtzStep c pw chd).1
                 else (dtzStep c pw chd).1) = edgeAdj c pw chd := rfl
            set dr1 := (dtzStep c pw chd).1 with hdr1
            set minD1 := if dr1 = 1 ∧ chd.checkers = true ∧ chd.moves.length = 0
                         then 1 else minD with hm1
            set dtz1 := if (c || pw) = false then dr1 + sign_of dr1 else dr1
              with ht1
            set minD2 := if dtz1 < minD1 ∧ sign_of dtz1 = sign_of wdl.toInt
                         then dtz1 else minD1 with hm2
            have hWpm : sign_of wdl.toInt = 1 ∨ sign_of wdl.toInt = -1 := by
              rcases sign_of_spec wdl.toInt with ⟨_, h⟩ | ⟨_, h⟩ | ⟨_, h⟩ <;>
                first | exact Or.inl h | exact Or.inr h | exact absurd h hW
            have hinv1 : minD1 = 65535
                ∨ (sign_of minD1 = sign_of wdl.toInt ∧ minD1 < 65535) := by
              rw [hm1]
              by_cases hmf : dr1 = 1 ∧ chd.checkers = true
                  ∧ chd.moves.length = 0
              · rcases hWpm with hw1 | hwm1
                · rw [if_pos hmf]
                  right
                  refine ⟨?_, by omega⟩
                  rw [hw1]
                  decide
                · exfalso
                  exact hmate hwm1 (c, pw, chd) (by simp [Edges.toList])
                    ⟨hraw ▸ hmf.1, hmf.2.1, hmf.2.2⟩
              · rw [if_neg hmf]
                exact hinv
            have hle1 : minD1 ≤ 65535 := by
              rcases hinv1 with h | ⟨_, h⟩ <;> omega
            have hinv2 : minD2 = 65535
                ∨ (sign_of minD2 = sign_of wdl.toInt ∧ minD2 < 65535) := by
              rw [hm2]
              by_cases hupd : dtz1 < minD1 ∧ sign_of dtz1 = sign_of wdl.toInt
              · rw [if_pos hupd]
                exact Or.inr ⟨hupd.2, by omega⟩
              · rw [if_neg hupd]
                exact hinv1
            have hmate2 : sign_of wdl.toInt = -1 →
                ∀ m ∈ rest.toList, ¬mateForce m.1 m.2.1 m.2.2 := by
              intro hwm m hm
              exact hmate hwm m (by simp [Edges.toList, hm])
            have hex2 : (∃ m ∈ rest.toList,
                sign_of (edgeAdj m.1 m.2.1 m.2.2) = sign_of wdl.toInt
                ∧ edgeAdj m.1 m.2.1 m.2.2 < 65535) ∨ minD2 ≠ 65535 := by
              rcases hex with ⟨m, hm, hsg, hlt⟩ | hne
              · simp only [Edges.toList, List.mem_cons] at hm
                rcases hm with hm | hm
                · right
                  rw [hm2]
                  rw [hm] at hsg hlt
                  dsimp only at hsg hlt
                  rw [← hadj] at hsg hlt
                  by_cases hupd : dtz1 < minD1
                      ∧ sign_of dtz1 = sign_of wdl.toInt
                  · rw [if_pos hupd]; omega
                  · rw [if_neg hupd]
                    have : ¬(dtz1 < minD1) := fun hc => hupd ⟨hc, hsg⟩
                    omega
                · exact Or.inl ⟨m, hm, hsg, hlt⟩
              · right
                rw [hm2]
                have hne1 : minD1 ≠ 65535 := by
                  rw [hm1]
                  by_cases hmf : dr1 = 1 ∧ chd.checkers = true
                      ∧ chd.moves.length = 0
                  · rw [if_pos hmf]; omega
                  · rw [if_neg hmf]; exact hne
                by_cases hupd : dtz1 < minD1 ∧ sign_of dtz1 = sign_of wdl.toInt
                · rw [if_pos hupd]; omega
                · rw [if_neg hupd]; exact hne1
            exact ih rest minD2 (dtzStep c pw chd).2
              (by simp [Edges.length] at hlen; omega) hinv2 hmate2 hex2 hnf

/-- Claim C2: for every position for which neither probe reports `FAIL`,
the sign of the integer returned by `probe_dtz` equals the sign of the
`WDLScore` returned by `probe_wdl`.  The premises record what correct
tables guarantee and the code cannot establish on its own: the
zeroing-aware and capture-only searches agree on the WDL score; a
successful DTZ table lookup yields a value of magnitude at least 1 (true
of the real decoder by `map_score_pos`); and when the DTZ table is
one-sided, the 1-ply `CHANGE_STM` search finds some move whose corrected
DTZ has the WDL's sign (spec section 8, property 11) and, in a lost
position, no move mates the opponent. -/
theorem probe_dtz_sign_matches_wdl (p : Pos)
    (hw : (probe_wdl p).2 ≠ ProbeState.fail)
    (hd : (probe_dtz p).2 ≠ ProbeState.fail)
    (hagree : (search true p).1 = (probe_wdl p).1)
    (hok : ∀ d, probe_table_dtz p.pieceCount p.dtzEntry = DtzProbe.found d →
      1 ≤ d)
    (hloop : probe_table_dtz p.pieceCount p.dtzEntry = DtzProbe.changeStm →
      (search true p).1 ≠ WDLScore.draw →
      (∃ m ∈ p.moves.toList,
          sign_of (edgeAdj m.1 m.2.1 m.2.2) = sign_of (search true p).1.toInt
          ∧ edgeAdj m.1 m.2.1 m.2.2 < 65535)
      ∧ (sign_of (search true p).1.toInt = -1 →
          ∀ m ∈ p.moves.toList, ¬mateForce m.1 m.2.1 m.2.2)) :
    sign_of (probe_dtz p).1 = sign_of (probe_wdl p).1.toInt := by
  rw [← hagree]
  cases p with
  | mk pc ch w dz ms =>
      simp only [Pos.pieceCount, Pos.dtzEntry, Pos.moves] at hok hloop
      rw [probe_dtz] at hd ⊢
      by_cases h1 : (search true (Pos.mk pc ch w dz ms)).2 = ProbeState.fail
          ∨ (search true (Pos.mk pc ch w dz ms)).1 = WDLScore.draw
      · rw [if_pos h1] at hd ⊢
        rcases h1 with h1 | h1
        · exact absurd h1 hd
        · rw [h1]
          norm_num [sign_of, WDLScore.toInt]
      · rw [if_neg h1] at hd ⊢
        have hnd : (search true (Pos.mk pc ch w dz ms)).1 ≠ WDLScore.draw :=
          fun hc => h1 (Or.inr hc)
        by_cases h2 : (search true (Pos.mk pc ch w dz ms)).2
            = ProbeState.zeroingBestMove
        · rw [if_pos h2] at hd ⊢
          cases hsr : (search true (Pos.mk pc ch w dz ms)).1
          all_goals
            first
              | exact absurd hsr hnd
              | simp [dtz_before_zeroing, sign_of, WDLScore.toInt]
        · rw [if_neg h2] at hd ⊢
          rcases hdt : probe_table_dtz pc dz with _ | _ | d
          · rw [hdt] at hd
            simp at hd
          · rw [hdt] at hd
            dsimp only at hd ⊢
            have hW : sign_of (search true (Pos.mk pc ch w dz ms)).1.toInt
                ≠ 0 := by
              cases hsr : (search true (Pos.mk pc ch w dz ms)).1 <;>
                first | (exact absurd hsr hnd) | decide
            have hl := hloop hdt hnd
            exact dtzLoop_sign _ hW ms.length ms 65535 ProbeState.changeStm
              (le_refl _) (Or.inl rfl) hl.2 (Or.inl hl.1) hd
          · rw [hdt] at hd
            dsimp only at hd ⊢
            have hd1 : 1 ≤ d := hok d hdt
            cases hsr : (search true (Pos.mk pc ch w dz ms)).1
            · simp only [WDLScore.toInt]
              unfold sign_of
              split_ifs <;> omega
            · simp only [WDLScore.toInt]
              unfold sign_of
              split_ifs <;> omega
            · exact absurd hsr hnd
            · simp only [WDLScore.toInt]
              unfold sign_of
              split_ifs <;> omega
            · simp only [WDLScore.toInt]
              unfold sign_of
              split_ifs <;> omega

/-- Witness for C2 at a concrete won three-piece position whose WDL table
stores a win and whose DTZ table stores 5: both probes succeed, and both
signs are positive. -/
theorem probe_dtz_sign_matches_wdl_witness :
    sign_of (probe_dtz (Pos.mk 3 false (some WDLScore.win) (DtzProbe.found 5)
        Edges.nil)).1
      = sign_of (probe_wdl (Pos.mk 3 false (some WDLScore.win)
        (DtzProbe.found 5) Edges.nil)).1.toInt := by
  have hf : ∀ czm : Bool, search czm (Pos.mk 3 false (some WDLScore.win)
      (DtzProbe.found 5) Edges.nil) = (WDLScore.win, ProbeState.ok) := by
    intro czm
    rw [search, searchLoop]
    simp [probe_table_wdl, Edges.length, WDLScore.toInt]
  apply probe_dtz_sign_matches_wdl
  · rw [probe_wdl, hf]
    simp
  · rw [probe_dtz, hf]
    simp [probe_table_dtz, WDLScore.toInt]
  · rw [probe_wdl]
    rw [hf, hf]
  · intro d h
    simp [probe_table_dtz, Pos.pieceCount, Pos.dtzEntry] at h
    omega
  · intro h
    simp [probe_table_dtz, Pos.pieceCount, Pos.dtzEntry] at h

/-- Unfolding lemma for the diagonal offset of a square. -/
theorem off_A1H8_eq (s : Nat) :
    off_A1H8 s = ((s / 8 : Nat) : Int) - ((s % 8 : Nat) : Int) := rfl

/-- The six squares of the a1-d1-d4 triangle strictly below the a1-h8
diagonal receive `MapA1D1D4` codes 0..5. -/
theorem mapA1D1D4_triangle_below_le_five :
    ∀ s : Nat, s < 28 →
      (((s / 8 : Nat) : Int) < ((s % 8 : Nat) : Int) ∧ s % 8 ≤ 3 →
        mapA1D1D4 s ≤ 5) := by decide

/-- The 28 squares strictly below the a1-h8 diagonal receive `MapB1H1H7`
codes 0..27. -/
theorem mapB1H1H7_le_27 :
    ∀ s : Nat, s < 64 →
      (((s / 8 : Nat) : Int) < ((s % 8 : Nat) : Int) → mapB1H1H7 s ≤ 27) := by
  decide

/-- Claim C6: for every normalized square triple (distinct squares, the
first in the a1-d1-d4 triangle, diagonal flips already applied so that the
first off-diagonal square of the group lies below the a1-h8 diagonal), the
four branches of the leading-group formula produce indices in the pairwise
disjoint ranges [0, 23436), [23436, 30380), [30380, 31164) and
[31164, 31332) respectively — so the whole index lies in [0, 31332) — and
the sizes of the four ranges, 23436 + 6944 + 784 + 168, sum to exactly the
leading-group factor 31332 stored by `set_groups` for pawnless tables with
at least 3 unique pieces. -/
theorem encodeLead3_disjoint_ranges (s0 s1 s2 : Nat)
    (h0 : s0 < 64) (h1 : s1 < 64) (h2 : s2 < 64)
    (hne01 : s0 ≠ s1) (hne02 : s0 ≠ s2) (hne12 : s1 ≠ s2)
    (htriF : file_of s0 ≤ 3) (htriR : rank_of s0 ≤ file_of s0)
    (hd1 : off_A1H8 s0 = 0 → off_A1H8 s1 ≤ 0)
    (hd2 : off_A1H8 s0 = 0 → off_A1H8 s1 = 0 → off_A1H8 s2 ≤ 0) :
    ((off_A1H8 s0 ≠ 0 →
        0 ≤ encodeLead3 s0 s1 s2 ∧ encodeLead3 s0 s1 s2 < 23436)
      ∧ (off_A1H8 s0 = 0 → off_A1H8 s1 ≠ 0 →
        23436 ≤ encodeLead3 s0 s1 s2 ∧ encodeLead3 s0 s1 s2 < 30380)
      ∧ (off_A1H8 s0 = 0 → off_A1H8 s1 = 0 → off_A1H8 s2 ≠ 0 →
        30380 ≤ encodeLead3 s0 s1 s2 ∧ encodeLead3 s0 s1 s2 < 31164)
      ∧ (off_A1H8 s0 = 0 → off_A1H8 s1 = 0 → off_A1H8 s2 = 0 →
        31164 ≤ encodeLead3 s0 s1 s2 ∧ encodeLead3 s0 s1 s2 < 31332))
    ∧ (0 ≤ encodeLead3 s0 s1 s2 ∧ encodeLead3 s0 s1 s2 < 31332)
    ∧ (∀ (e : TBMeta) (g f : Nat), e.hasPawns = false →
        3 ≤ e.numUniquePieces →
        set_groups_lead_factor e g f = 23436 + 6944 + 784 + 168) := by
  have hB1 : off_A1H8 s0 ≠ 0 →
      0 ≤ encodeLead3 s0 s1 s2 ∧ encodeLead3 s0 s1 s2 < 23436 := by
    intro ha
    rw [off_A1H8_eq] at ha
    have htF : s0 % 8 ≤ 3 := htriF
    have htR : s0 / 8 ≤ s0 % 8 := htriR
    have haneg : ((s0 / 8 : Nat) : Int) < ((s0 % 8 : Nat) : Int) := by omega
    have hs28 : s0 < 28 := by omega
    have hm : mapA1D1D4 s0 ≤ 5 :=
      mapA1D1D4_triangle_below_le_five s0 hs28 ⟨haneg, htF⟩
    simp only [encodeLead3, off_A1H8_eq, rank_of, file_of]
    rw [if_pos (by omega :
      ¬(((s0 / 8 : Nat) : Int) - ((s0 % 8 : Nat) : Int) = 0))]
    constructor <;> split_ifs <;> omega
  have hB2 : off_A1H8 s0 = 0 → off_A1H8 s1 ≠ 0 →
      23436 ≤ encodeLead3 s0 s1 s2 ∧ encodeLead3 s0 s1 s2 < 30380 := by
    intro ha hb
    have hbneg := hd1 ha
    rw [off_A1H8_eq] at ha hb hbneg
    have htF : s0 % 8 ≤ 3 := htriF
    have hm : mapB1H1H7 s1 ≤ 27 := mapB1H1H7_le_27 s1 h1 (by omega)
    simp only [encodeLead3, off_A1H8_eq, rank_of, file_of]
    rw [if_neg (by omega), if_pos (by omega)]
    constructor <;> split_ifs <;> omega
  have hB3 : off_A1H8 s0 = 0 → off_A1H8 s1 = 0 → off_A1H8 s2 ≠ 0 →
      30380 ≤ encodeLead3 s0 s1 s2 ∧ encodeLead3 s0 s1 s2 < 31164 := by
    intro ha hb hc
    have hcneg := hd2 ha hb
    rw [off_A1H8_eq] at ha hb hc hcneg
    have htF : s0 % 8 ≤ 3 := htriF
    have hm : mapB1H1H7 s2 ≤ 27 := mapB1H1H7_le_27 s2 h2 (by omega)
    simp only [encodeLead3, off_A1H8_eq, rank_of, file_of]
    rw [if_neg (by omega), if_neg (by omega), if_pos (by omega)]
    constructor <;> split_ifs <;> omega
  have hB4 : off_A1H8 s0 = 0 → off_A1H8 s1 = 0 → off_A1H8 s2 = 0 →
      31164 ≤ encodeLead3 s0 s1 s2 ∧ encodeLead3 s0 s1 s2 < 31332 := by
    intro ha hb hc
    rw [off_A1H8_eq] at ha hb hc
    have htF : s0 % 8 ≤ 3 := htriF
    have htR : s0 / 8 ≤ s0 % 8 := htriR
    simp only [encodeLead3, off_A1H8_eq, rank_of, file_of]
    rw [if_neg (by omega), if_neg (by omega), if_neg (by omega)]
    constructor <;> split_ifs <;> omega
  refine ⟨⟨hB1, hB2, hB3, hB4⟩, ?_, ?_⟩
  · by_cases ha : off_A1H8 s0 = 0
    · by_cases hb : off_A1H8 s1 = 0
      · by_cases hc : off_A1H8 s2 = 0
        · have := hB4 ha hb hc; omega
        · have := hB3 ha hb hc; omega
      · have := hB2 ha hb; omega
    · have := hB1 ha; omega
  · intro e g f hp h3
    simp [set_groups_lead_factor, hp, h3]

/-- Witness for C6 at the concrete normalized triple b1, c1, d1 (squares
1, 2, 3): all three distinct, the first in the triangle and below the
diagonal, with the resulting index inside [0, 31332). -/
theorem encodeLead3_disjoint_ranges_witness :
    0 ≤ encodeLead3 1 2 3 ∧ encodeLead3 1 2 3 < 31332 :=
  (encodeLead3_disjoint_ranges 1 2 3 (by decide) (by decide) (by decide)
    (by decide) (by decide) (by decide) (by decide) (by decide) (by decide)
    (by decide)).2.1

/-- A probe of `TBTables::get` stops (at a matching key or at a null typed
pointer) as soon as some bucket within its fuel satisfies the stop
condition. -/
theorem getLoop_stops (t : Nat → HEntry) (key : Nat) (u : Bool) :
    ∀ (fuel bucket : Nat),
      (∃ j < fuel, (t (bucket + j)).key = key
        ∨ (t (bucket + j)).typedPtr u = none) →
      getLoop t key u fuel bucket ≠ none := by
  intro fuel
  induction fuel with
  | zero =>
      intro bucket h
      obtain ⟨j, hj, _⟩ := h
      omega
  | succ n ih =>
      intro bucket h
      rw [getLoop]
      by_cases hs : (t bucket).key = key ∨ (t bucket).typedPtr u = none
      · simp [hs]
      · simp only [if_neg hs]
        apply ih
        obtain ⟨j, hj, hstop⟩ := h
        match j, hstop with
        | 0, hstop => exact absurd (by simpa using hstop) hs
        | j + 1, hstop =>
            exact ⟨j, by omega,
              by simpa [Nat.add_assoc, Nat.add_comm 1 j] using hstop⟩

/-- `TBTables::insert` preserves the catalog invariants: buckets at or past
the reserved overflow slot stay empty (the walk writes only below
`Size + Overflow - 1`), and every occupied bucket is at or past the home
bucket of the key it holds (for displaced entries this follows from the
Robin Hood swap condition and the invariant itself). -/
theorem insertLoop_preserves :
    ∀ (fuel : Nat) (t : Nat → HEntry) (key home : Nat) (e : HEntry)
      (bucket : Nat) (t' : Nat → HEntry),
      (∀ b, HSize ≤ b → t b = emptyEntry) →
      (∀ b, (t b).wdl ≠ none → (t b).key % HSize ≤ b) →
      e.key = key → key % HSize = home → home ≤ bucket →
      insertLoop t key home e fuel bucket = some t' →
      (∀ b, HSize ≤ b → t' b = emptyEntry)
      ∧ (∀ b, (t' b).wdl ≠ none → (t' b).key % HSize ≤ b) := by
  intro fuel
  induction fuel with
  | zero =>
      intro t key home e bucket t' _ _ _ _ _ hins
      rw [insertLoop] at hins
      exact absurd hins (by simp)
  | succ n ih =>
      intro t key home e bucket t' htail hhome hek hkh hhb hins
      rw [insertLoop] at hins
      by_cases hlt : bucket < HSize + 1 - 1
      · rw [if_pos hlt] at hins
        by_cases hstop : (t bucket).key = key ∨ (t bucket).wdl = none
        · rw [if_pos hstop] at hins
          injection hins with hins
          subst hins
          constructor
          · intro b hb
            rw [Function.update_apply, if_neg (by omega)]
            exact htail b hb
          · intro b
            rw [Function.update_apply]
            by_cases hbb : b = bucket
            · simp [hbb, hek, hkh]
              omega
            · simp [hbb]
              exact hhome b
        · rw [if_neg hstop] at hins
          push_neg at hstop
          by_cases hsw : home < (t bucket).key % HSize
          · rw [if_pos hsw] at hins
            have hob : (t bucket).key % HSize ≤ bucket := hhome bucket hstop.2
            refine ih _ _ _ _ _ _ ?_ ?_ rfl rfl (by omega) hins
            · intro b hb
              rw [Function.update_apply, if_neg (by omega)]
              exact htail b hb
            · intro b
              rw [Function.update_apply]
              by_cases hbb : b = bucket
              · simp [hbb, hek, hkh]
                omega
              · simp [hbb]
                exact hhome b
          · rw [if_neg hsw] at hins
            exact ih _ _ _ _ _ _ htail hhome hek hkh (by omega) hins
      · rw [if_neg hlt] at hins
        exact absurd hins (by simp)

/-- A whole sequence of insertions preserves the catalog invariants. -/
theorem insertAll_preserves :
    ∀ (items : List (Nat × Nat × Nat)) (t t' : Nat → HEntry),
      (∀ b, HSize ≤ b → t b = emptyEntry) →
      (∀ b, (t b).wdl ≠ none → (t b).key % HSize ≤ b) →
      insertAll items t = some t' →
      (∀ b, HSize ≤ b → t' b = emptyEntry)
      ∧ (∀ b, (t' b).wdl ≠ none → (t' b).key % HSize ≤ b) := by
  intro items
  induction items with
  | nil =>
      intro t t' h1 h2 hins
      rw [insertAll] at hins
      injection hins with hins
      subst hins
      exact ⟨h1, h2⟩
  | cons item rest ih =>
      intro t t' h1 h2 hins
      rw [insertAll] at hins
      rcases hi : insert t item.1 item.2.1 item.2.2 with _ | t1
      · rw [hi] at hins; exact absurd hins (by simp)
      · rw [hi] at hins
        have h3 := insertLoop_preserves (HSize + 1) t item.1 (item.1 % HSize)
          ⟨item.1, some item.2.1, some item.2.2⟩ (item.1 % HSize) t1 h1 h2 rfl
          rfl (le_refl _) hi
        exact ih t1 t' h3.1 h3.2 hins

/-- Claim C9: after any sequence of catalog insertions that completes
without aborting, the hash table's last (overflow) bucket is never written
— it still holds the cleared empty entry, as does every bucket past it —
so every `get()` linear probe stops at a matching key or an empty slot
within the table (it returns a value with fuel reaching the reserved empty
bucket), and every stored entry resides at a bucket index at least its
home bucket (the low bits of its material key). -/
theorem tbtables_catalog_invariants :
    ∀ (items : List (Nat × Nat × Nat)) (t : Nat → HEntry),
      insertAll items clearedTable = some t →
      (∀ b, HSize ≤ b → t b = emptyEntry)
      ∧ (∀ b, (t b).wdl ≠ none → (t b).key % HSize ≤ b)
      ∧ (∀ (key : Nat) (u : Bool),
          getLoop t key u (HSize + 1 - key % HSize) (key % HSize) ≠ none) := by
  intro items t hins
  have h := insertAll_preserves items clearedTable t
    (fun _ _ => rfl) (fun b hb => absurd rfl hb) hins
  refine ⟨h.1, h.2, ?_⟩
  intro key u
  apply getLoop_stops
  refine ⟨HSize - key % HSize, ?_, Or.inr ?_⟩
  · have : key % HSize < HSize := Nat.mod_lt _ (by norm_num [HSize])
    omega
  · have hh : key % HSize + (HSize - key % HSize) = HSize := by
      have : key % HSize < HSize := Nat.mod_lt _ (by norm_num [HSize])
      omega
    rw [hh, h.1 HSize (le_refl _)]
    cases u <;> rfl

/-- Witness for C9: one concrete insertion into the cleared table completes
and the invariants hold for the resulting table. -/
theorem tbtables_catalog_invariants_witness :
    ∃ t, insertAll [(5, 1, 2)] clearedTable = some t
      ∧ ((∀ b, HSize ≤ b → t b = emptyEntry)
          ∧ (∀ b, (t b).wdl ≠ none → (t b).key % HSize ≤ b)
          ∧ (∀ (key : Nat) (u : Bool),
              getLoop t key u (HSize + 1 - key % HSize) (key % HSize)
                ≠ none)) :=
  ⟨_, rfl, tbtables_catalog_invariants [(5, 1, 2)] _ rfl⟩

/-- Counterexample for C7: the claim says the 518 leading-group factor goes
exactly to the connected-kings variants (atomic / the antichess family) and
to no other variant, but `set_groups` chooses the factor with
`variant == CHESS_VARIANT ? 462 : 518`: a pawnless 2-unique table of the
two-kings variant — which has a WDL suffix in the source's suffix table and
is not a connected-kings variant — receives 518. -/
theorem set_groups_twokings_receives_518 :
    set_groups_lead_factor ⟨false, 2, 0, Variant.twokings⟩ 2 0 = 518
    ∧ connectedKings Variant.twokings = false := by decide

/-- Claim C7 (amended): for every pawnless table with exactly 2 unique
pieces, `set_groups` multiplies the leading-group factor by 462 when the
variant is standard chess and by 518 for every other variant; in
particular every connected-kings variant (atomic / antichess family)
receives the 518 factor. -/
theorem set_groups_two_unique_factor (e : TBMeta) (g f : Nat)
    (hp : e.hasPawns = false) (hu : e.numUniquePieces = 2) :
    set_groups_lead_factor e g f
      = (if e.variant = Variant.chess then 462 else 518)
    ∧ (connectedKings e.variant = true → set_groups_lead_factor e g f = 518)
    := by
  have h3 : ¬(3 ≤ e.numUniquePieces) := by omega
  constructor
  · simp [set_groups_lead_factor, hp, hu, h3]
  · intro hck
    have hv : e.variant ≠ Variant.chess := by
      intro hv
      rw [hv] at hck
      simp [connectedKings, mainVariant] at hck
    simp [set_groups_lead_factor, hp, hu, h3, hv]

/-- Witness for the amended C7 at a concrete atomic-chess 2-unique pawnless
table. -/
theorem set_groups_two_unique_factor_witness :
    set_groups_lead_factor ⟨false, 2, 0, Variant.atomic⟩ 2 0 = 518 :=
  (set_groups_two_unique_factor ⟨false, 2, 0, Variant.atomic⟩ 2 0 rfl rfl).2
    (by decide)

/-- Whenever `search` reports failure, the returned score is a draw: both
inner failure exits of the move loop and of the position probe return
`(WDLDraw, FAIL)`, and every other exit sets a non-failure state. -/
theorem search_fail_draw (czm : Bool) (p : Pos) :
    (search czm p).2 = ProbeState.fail → (search czm p).1 = WDLScore.draw := by
  cases p with
  | mk pc ch w dz ms =>
      rw [search]
      cases hsl : searchLoop czm ms WDLScore.loss 0 with
      | fail => simp
      | early v => simp
      | done best cnt =>
          by_cases hn : (cnt != 0 && cnt == ms.length) = true
          · simp [hn]
          · rcases hpw : probe_table_wdl pc w with _ | value
            · simp [hn, hpw]
            · simp only [hn, hpw]
              simp
              split_ifs <;> simp

/-- Whenever the `CHANGE_STM` loop of `probe_dtz` ends in failure, it has
returned 0: the only failure exit is the per-iteration
`if (*result == FAIL) return 0`. -/
theorem dtzLoop_fail_zero (wdl : WDLScore) :
    ∀ (n : Nat) (es : Edges) (minD : Int) (r : ProbeState), es.length ≤ n →
      r ≠ ProbeState.fail →
      (dtzLoop wdl es minD r).2 = ProbeState.fail →
      (dtzLoop wdl es minD r).1 = 0 := by
  intro n
  induction n with
  | zero =>
      intro es minD r hlen hr
      cases es with
      | nil => rw [dtzLoop]; exact fun hc => absurd hc hr
      | cons c pw chd rest => simp [Edges.length] at hlen
  | succ n ih =>
      intro es minD r hlen hr
      cases es with
      | nil => rw [dtzLoop]; exact fun hc => absurd hc hr
      | cons c pw chd rest =>
          rw [dtzLoop]
          by_cases hf : (dtzStep c pw chd).2 = ProbeState.fail
          · simp [hf]
          · simp only [if_neg hf]
            apply ih
            · simp [Edges.length] at hlen; omega
            · exact hf

/-- Whenever `probe_dtz` reports failure, it has returned 0: each of its
failure exits (failed zeroing-aware search, failed DTZ table probe, failure
inside the `CHANGE_STM` loop) returns 0. -/
theorem probe_dtz_fail_zero (p : Pos) :
    (probe_dtz p).2 = ProbeState.fail → (probe_dtz p).1 = 0 := by
  cases p with
  | mk pc ch w dz ms =>
      rw [probe_dtz]
      by_cases h1 : (search true (Pos.mk pc ch w dz ms)).2 = ProbeState.fail
          ∨ (search true (Pos.mk pc ch w dz ms)).1 = WDLScore.draw
      · simp [h1]
      · simp only [if_neg h1]
        by_cases h2 : (search true (Pos.mk pc ch w dz ms)).2
            = ProbeState.zeroingBestMove
        · simp [h2]
        · simp only [if_neg h2]
          rcases hdt : probe_table_dtz pc dz with _ | _ | d
          · simp
          · exact dtzLoop_fail_zero _ ms.length ms 65535 ProbeState.changeStm
              (le_refl _) (by simp)
          · simp
            intro hc
            exact absurd (Or.inl hc) h1

/-- Claim C10: whenever a probe fails (a required table is missing or
cannot be mapped, surfacing as `FAIL`), `probe_wdl` and the internal
recursive `search` return `WDLDraw` as the score value, and `probe_dtz`
returns 0.  (The spec does not fix the value returned on failure; this is
the behaviour of the code.) -/
theorem probe_failure_values (czm : Bool) (p : Pos) :
    ((search czm p).2 = ProbeState.fail → (search czm p).1 = WDLScore.draw)
    ∧ ((probe_wdl p).2 = ProbeState.fail → (probe_wdl p).1 = WDLScore.draw)
    ∧ ((probe_dtz p).2 = ProbeState.fail → (probe_dtz p).1 = 0) :=
  ⟨search_fail_draw czm p, search_fail_draw false p, probe_dtz_fail_zero p⟩

/-- Claim C1: with a present tablebase, if the zeroing-aware search
(`search<true>`) reports a draw, `probe_dtz` returns 0; if the search sets
`ZEROING_BEST_MOVE` (and the score is not the draw already returned by the
previous case), `probe_dtz` returns `dtz_before_zeroing(wdl)`, which is one
of 1, 101, -101, -1; and for a position where the side to move is
checkmated — in check, no legal moves, more than two pieces, with the WDL
table correctly storing a loss and the DTZ table either one-sided
(`CHANGE_STM`) or correctly storing the 1-ply distance — `probe_dtz`
returns -1. -/
theorem probe_dtz_driver_cases (p : Pos) :
    ((search true p).1 = WDLScore.draw → (probe_dtz p).1 = 0)
    ∧ ((search true p).2 = ProbeState.zeroingBestMove →
        (search true p).1 ≠ WDLScore.draw →
        (probe_dtz p).1 = dtz_before_zeroing (search true p).1
        ∧ ((probe_dtz p).1 = 1 ∨ (probe_dtz p).1 = 101
            ∨ (probe_dtz p).1 = -101 ∨ (probe_dtz p).1 = -1))
    ∧ (p.checkers = true → p.moves = Edges.nil → p.pieceCount ≠ 2 →
        p.wdlEntry = some WDLScore.loss →
        (p.dtzEntry = DtzProbe.changeStm ∨ p.dtzEntry = DtzProbe.found 1) →
        (probe_dtz p).1 = -1) := by
  cases p with
  | mk pc ch w dz ms =>
      refine ⟨?_, ?_, ?_⟩
      · intro hdraw
        rw [probe_dtz]
        simp [hdraw]
      · intro hzbm hnd
        rw [probe_dtz]
        simp only [hzbm]
        rw [if_neg (by simp [hnd])]
        simp only [if_true]
        refine ⟨by simp, ?_⟩
        cases hw : (search true (Pos.mk pc ch w dz ms)).1 <;>
          first
            | exact absurd hw hnd
            | simp [dtz_before_zeroing, hw]
      · intro hch hms hpc hw hdz
        simp only [Pos.checkers, Pos.moves, Pos.pieceCount, Pos.wdlEntry,
          Pos.dtzEntry] at hch hms hpc hw hdz
        subst hch hms hw
        have hs : search true (Pos.mk pc true (some WDLScore.loss) dz Edges.nil)
            = (WDLScore.loss, ProbeState.ok) := by
          rw [search, searchLoop]
          simp [probe_table_wdl, Edges.length, hpc, WDLScore.toInt]
        rw [probe_dtz, hs]
        norm_num [WDLScore.toInt]
        rcases hdz with hdz | hdz <;> subst hdz <;>
          simp [probe_table_dtz, hpc, sign_of, WDLScore.toInt]
        · rw [dtzLoop]
          simp

/-- Witness for C1 at a concrete checkmated three-piece position with a
correct WDL table and a one-sided DTZ table. -/
theorem probe_dtz_driver_cases_witness :
    (probe_dtz (Pos.mk 3 true (some WDLScore.loss) DtzProbe.changeStm
      Edges.nil)).1 = -1 :=
  (probe_dtz_driver_cases _).2.2 rfl rfl (by decide) rfl (Or.inl rfl)

/-- Witness for C10 at a three-piece position whose tables are missing:
the searches fail and return a draw, and the DTZ probe fails and
returns 0. -/
theorem probe_failure_values_witness :
    (search true (Pos.mk 3 false none DtzProbe.fail Edges.nil)).1
      = WDLScore.draw
    ∧ (probe_dtz (Pos.mk 3 false none DtzProbe.fail Edges.nil)).1 = 0 := by
  have h := probe_failure_values true (Pos.mk 3 false none DtzProbe.fail Edges.nil)
  refine ⟨h.1 ?_, h.2.2 ?_⟩
  · rw [search, searchLoop]
    simp [probe_table_wdl, Edges.length]
  · rw [probe_dtz]
    rw [search, searchLoop]
    simp [probe_table_wdl, Edges.length]

/-- Witness for C8: a size-17 file aborts; a size-80 file with wrong
leading bytes is unmapped and treated as missing; a size-80 file with the
expected magic yields the pointer past the magic. -/
theorem TBFile_map_header_validation_witness :
    (TBFile_map 17 (fun _ => 0) (fun _ => 0)).aborted = true
    ∧ TBFile_map 80 (fun _ => 0) (fun _ => 1)
        = { aborted := false, baseAddress := none, returned := none,
            unmapCalled := true }
    ∧ (TBFile_map 80 (fun _ => 213) (fun _ => 213)).returned = some 4 :=
  ⟨(TBFile_map_header_validation 17 (fun _ => 0) (fun _ => 0)).1 (by decide),
   (TBFile_map_header_validation 80 (fun _ => 0) (fun _ => 1)).2.1 (by decide)
     (by decide),
   ((TBFile_map_header_validation 80 (fun _ => 213) (fun _ => 213)).2.2
     (by decide) (by decide)).1⟩

end Syzygy
